import Mathlib

/-!
Verification of the upload/preview/search data-flow contracts of the
Image-Searcher repository.

The embedding covers:
* the upload session manager of `upload-page.tsx` and its live variant
  (validation, preview generation, the entry list, the upload lifecycle);
* the search/browse session of `search-page.tsx` in both its mock-data
  variant and its live variant (client-side filtering and sorting, the
  `runSearch` call);
* the server-side proxy route `app/api/search/route.ts`.

Numbers that the source handles as JavaScript numbers are modelled as `Nat`
(progress values in the sources are the literals 0, 5, 7, 85, 100 plus a
random ramp increment, modelled as an arbitrary natural step; none of the
verified properties depends on fractional progress values).  JavaScript
string helpers (`toLowerCase`, `includes`, `trim`, `localeCompare`) are
modelled character-wise on the underlying character list; `localeCompare`
is modelled as code-point lexicographic comparison, which agrees with the
locale order on the lower-case ASCII filenames this application handles.
-/

/- ------------------------------------------------------------------ -/
/- JavaScript string helpers                                           -/
/- ------------------------------------------------------------------ -/

/-- Character-wise lower casing; models `String.prototype.toLowerCase` as
used on filenames and tags. -/
def jsToLower (s : String) : String := ⟨s.data.map Char.toLower⟩

/-- Substring test; models `String.prototype.includes`: `sub` occurs
contiguously inside `hay`. -/
def jsIncludes (hay sub : String) : Bool := decide (sub.toList <:+: hay.toList)

/-- Whitespace trimming; models `String.prototype.trim`, used by the proxy
route to detect empty queries. -/
def jsTrim (s : String) : String :=
  ⟨((s.data.dropWhile (fun c => c.isWhitespace)).reverse.dropWhile
      (fun c => c.isWhitespace)).reverse⟩

/-- Three-way code-point comparison on character lists, the order
underlying the model of `localeCompare`. -/
def lexCompare : List Char → List Char → Ordering
  | [], [] => .eq
  | [], _ :: _ => .lt
  | _ :: _, [] => .gt
  | a :: as, b :: bs => if a < b then .lt else if b < a then .gt else lexCompare as bs

/-- Model of `String.prototype.localeCompare` as used by the name sort:
negative when `a` precedes `b`, zero when equal, positive otherwise.
Modelled as code-point lexicographic comparison (see the header note). -/
def localeCompare (a b : String) : Int :=
  match lexCompare a.data b.data with
  | .lt => -1
  | .eq => 0
  | .gt => 1

/-- Model of `a || b` on an optional string field of a parsed JSON row:
JavaScript falls back to `b` when `a` is absent or the empty string. -/
def jsOrElse (a : Option String) (b : String) : String :=
  match a with
  | none => b
  | some v => if v = "" then b else v

/- ------------------------------------------------------------------ -/
/- Upload session manager (upload-page.tsx and its live variant)       -/
/- ------------------------------------------------------------------ -/

/-- Status of an upload entry: the `status` field of the `UploadFile`
interface (`"pending" | "uploading" | "completed" | "error"`). -/
inductive UploadStatus where
  | pending
  | uploading
  | completed
  | error
deriving DecidableEq

/-- A browser `File` as far as the upload page inspects it: `file.name`,
`file.type` (MIME type) and `file.size` (bytes). -/
structure JSFile where
  name : String
  type : String
  size : Nat
deriving DecidableEq

/-- The `allowedTypes` constant of the upload page. -/
def allowedTypes : List String := ["application/pdf"]

/-- The `maxFileSize` constant of the upload page (10MB). -/
def maxFileSize : Nat := 10 * 1024 * 1024

/-- The `validateFile` function of the upload page: `some message` on a
rejected file, `none` on an accepted file. -/
def validateFile (file : JSFile) : Option String :=
  if !(allowedTypes.contains file.type) then
    some "Invalid file type. Only PDF is allowed."
  else if file.size > maxFileSize then
    some "File size exceeds 10MB limit."
  else
    none

/-- One tracked upload entry: the `UploadFile` interface of the upload
page.  `preview` is the optional data URL of the rendered first page. -/
structure UploadFile where
  id : String
  file : JSFile
  progress : Nat
  status : UploadStatus
  preview : Option String
deriving DecidableEq

/-- The loop body of `handleFiles`: walks the selected files carrying the
loop index `i`, skips files rejected by `validateFile`, and otherwise
awaits `createPreview` (modelled by `pv`; `none` models a thrown render
error) before pushing the new entry.  `generatePdfThumbnail` in the live
upload page has no catch, so a render failure rejects the whole
`handleFiles` call: this is modelled by the `Option` result, where `none`
means the loop threw and no entry list was produced. -/
def handleFilesLoop (pv : JSFile → Option String) (ids : Nat → String) :
    Nat → List JSFile → Option (List UploadFile)
  | _, [] => some []
  | i, file :: rest =>
    match validateFile file with
    | some _ => handleFilesLoop pv ids (i + 1) rest
    | none =>
      match pv file with
      | none => none
      | some preview =>
        (handleFilesLoop pv ids (i + 1) rest).map
          (fun tail =>
            { id := ids i, file := file, progress := 0,
              status := UploadStatus.pending, preview := some preview } :: tail)

/-- The `handleFiles` callback: on success the new entries are appended to
the previous entry list (`setUploadFiles(prev => [...prev, ...newFiles])`);
`none` models the call throwing before `setUploadFiles` runs, leaving the
entry list unchanged. -/
def handleFiles (pv : JSFile → Option String) (ids : Nat → String)
    (prev : List UploadFile) (files : List JSFile) : Option (List UploadFile) :=
  (handleFilesLoop pv ids 0 files).map (fun newFiles => prev ++ newFiles)

/-- First step of `uploadOne` in the live upload page: the matching entry
is set to `"uploading"` with progress 5. -/
def uploadOneStart (i : String) (l : List UploadFile) : List UploadFile :=
  l.map (fun f =>
    if f.id == i then { f with status := UploadStatus.uploading, progress := 5 } else f)

/-- One tick of the cosmetic progress ramp inside `uploadOne`: while the
entry is still `"uploading"`, progress advances by 7 up to the cap 85. -/
def uploadOneRamp (i : String) (l : List UploadFile) : List UploadFile :=
  l.map (fun f =>
    if f.id == i && f.status == UploadStatus.uploading then
      { f with progress := min (f.progress + 7) 85 }
    else f)

/-- Iterated ramp ticks. -/
def uploadOneRampN (i : String) : Nat → List UploadFile → List UploadFile
  | 0, l => l
  | n + 1, l => uploadOneRampN i n (uploadOneRamp i l)

/-- Completion of `uploadOne`: on a successful response the matching entry
becomes `"completed"` with progress 100, otherwise (the fetch rejected or
`resp.ok` was false, both reaching the catch block) it becomes
`"error"`. -/
def uploadOneFinish (i : String) (ok : Bool) (l : List UploadFile) : List UploadFile :=
  if ok then
    l.map (fun f =>
      if f.id == i then { f with status := UploadStatus.completed, progress := 100 } else f)
  else
    l.map (fun f =>
      if f.id == i then { f with status := UploadStatus.error } else f)

/-- The whole `uploadOne` call for one entry: start, `ticks` ramp ticks
while the transfer is in flight, then the terminal transition decided by
the transport outcome `ok`. -/
def uploadOne (i : String) (ok : Bool) (ticks : Nat) (l : List UploadFile) : List UploadFile :=
  uploadOneFinish i ok (uploadOneRampN i ticks (uploadOneStart i l))

/-- First step of `simulateUpload` in the mock upload page: the matching
entry is set to `"uploading"` (progress untouched). -/
def simulateUploadStart (i : String) (l : List UploadFile) : List UploadFile :=
  l.map (fun f =>
    if f.id == i then { f with status := UploadStatus.uploading } else f)

/-- One interval tick of `simulateUpload`: while the entry is
`"uploading"`, progress advances by the random step `r` capped at 100, and
reaching 100 completes the entry. -/
def simulateUploadTick (i : String) (r : Nat) (l : List UploadFile) : List UploadFile :=
  l.map (fun f =>
    if f.id == i && f.status == UploadStatus.uploading then
      if 100 ≤ f.progress + r then
        { f with progress := 100, status := UploadStatus.completed }
      else
        { f with progress := f.progress + r }
    else f)

/-- The `removeFile` callback: discards the entry unconditionally. -/
def removeFile (i : String) (l : List UploadFile) : List UploadFile :=
  l.filter (fun f => !(f.id == i))

/-- The operations that mutate the entry list of an upload session.
`add` is a `handleFiles` call; `start` is the first state update of
`uploadOne` and `startSim` the first state update of `simulateUpload`
(both are only reachable from call sites guarded by
`status === "pending"`: the per-entry upload button is rendered only for
pending entries and `uploadAll` filters on pending, so the step function
below applies them only when a pending entry with that id exists);
`ramp`/`tick` are the in-flight progress timers (already guarded on
`status === "uploading"` in the source); `finish` is the terminal update
of `uploadOne`; `remove` is `removeFile`.  `uploadAll` is a sequence of
`start` operations, one per pending entry. -/
inductive UploadOp where
  | add (pv : JSFile → Option String) (ids : Nat → String) (files : List JSFile)
  | start (i : String)
  | startSim (i : String)
  | ramp (i : String)
  | tick (i : String) (r : Nat)
  | finish (i : String) (ok : Bool)
  | remove (i : String)

/-- Effect of one operation on the entry list. -/
def stepOp : UploadOp → List UploadFile → List UploadFile
  | .add pv ids files, l =>
    match handleFilesLoop pv ids 0 files with
    | none => l
    | some newFiles => l ++ newFiles
  | .start i, l =>
    if l.any (fun f => f.id == i && f.status == UploadStatus.pending) then
      uploadOneStart i l
    else l
  | .startSim i, l =>
    if l.any (fun f => f.id == i && f.status == UploadStatus.pending) then
      simulateUploadStart i l
    else l
  | .ramp i, l => uploadOneRamp i l
  | .tick i r, l => simulateUploadTick i r l
  | .finish i ok, l => uploadOneFinish i ok l
  | .remove i, l => removeFile i l

/-- Runs a sequence of operations. -/
def runOps (l : List UploadFile) : List UploadOp → List UploadFile
  | [] => l
  | op :: ops => runOps (stepOp op l) ops

/-- All intermediate states of a run, the initial state included. -/
def runStates (l : List UploadFile) : List UploadOp → List (List UploadFile)
  | [] => [l]
  | op :: ops => l :: runStates (stepOp op l) ops

/-- Status of the entry with identifier `i`, if present. -/
def statusOf (l : List UploadFile) (i : String) : Option UploadStatus :=
  (l.find? (fun f => f.id == i)).map (fun f => f.status)

/-- Preview of the entry with identifier `i`, if present. -/
def previewOf (l : List UploadFile) (i : String) : Option (Option String) :=
  (l.find? (fun f => f.id == i)).map (fun f => f.preview)

/-- Position of a status in the lifecycle order
pending → uploading → (completed | error); the two terminal states share
the last position. -/
def statusRank : UploadStatus → Nat
  | .pending => 0
  | .uploading => 1
  | .completed => 2
  | .error => 2

/- ------------------------------------------------------------------ -/
/- Search page: mock variants (client-side filtering)                  -/
/- ------------------------------------------------------------------ -/

/-- One mock document as filtered by the mock search pages: the fields
read by the filter (`name`, `type`, `tags`). -/
structure MockDoc where
  name : String
  type : String
  tags : List String
deriving DecidableEq

/-- The `matchesSearch` conjunct of the mock filter: the filename or some
tag contains the query, case-insensitively. -/
def matchesSearch (q : String) (doc : MockDoc) : Bool :=
  jsIncludes (jsToLower doc.name) (jsToLower q) ||
    doc.tags.any (fun t => jsIncludes (jsToLower t) (jsToLower q))

/-- The `matchesType` conjunct of the mock filter. -/
def matchesType (selectedTypes : List String) (doc : MockDoc) : Bool :=
  selectedTypes.isEmpty || selectedTypes.contains doc.type

/-- The `matchesTags` conjunct of the mock filter. -/
def matchesTags (selectedTags : List String) (doc : MockDoc) : Bool :=
  selectedTags.isEmpty || selectedTags.any (fun t => doc.tags.contains t)

/-- The `filtered` / `filteredImages` computation of the mock search pages
(`search-page.tsx` mock variant and the mock PDF variant): keep the
documents satisfying all three predicates. -/
def filteredMock (docs : List MockDoc) (q : String)
    (selectedTypes selectedTags : List String) : List MockDoc :=
  docs.filter (fun doc =>
    matchesSearch q doc && matchesType selectedTypes doc && matchesTags selectedTags doc)

/-- Modelled from the spec: the matching semantics of client-side
filtering, written from the specification wording — a result matches when
(filename or some tag contains the query case-insensitively) and (the type
set is empty or contains the type) and (the tag set is empty or shares a
tag).  Kept separate from `filteredMock` so the code can be compared
against the stated semantics. -/
def specMatches (q : String) (selectedTypes selectedTags : List String)
    (doc : MockDoc) : Prop :=
  (jsIncludes (jsToLower doc.name) (jsToLower q) = true ∨
      ∃ t ∈ doc.tags, jsIncludes (jsToLower t) (jsToLower q) = true) ∧
    (selectedTypes = [] ∨ doc.type ∈ selectedTypes) ∧
    (selectedTags = [] ∨ ∃ t ∈ selectedTags, t ∈ doc.tags)

instance (q : String) (selectedTypes selectedTags : List String) (doc : MockDoc) :
    Decidable (specMatches q selectedTypes selectedTags doc) := by
  unfold specMatches
  infer_instance

/-- Modelled from the spec: the displayed list as the specification states
it — exactly the results satisfying `specMatches`. -/
def specFilteredView (q : String) (selectedTypes selectedTags : List String)
    (docs : List MockDoc) : List MockDoc :=
  docs.filter (fun doc => decide (specMatches q selectedTypes selectedTags doc))

/-- The `sortBy === "name"` branch of the mock PDF search page
(`items` in the mock variant): the same stable sort by
`a.name.localeCompare(b.name)`. -/
def mockSortByName (l : List MockDoc) : List MockDoc :=
  l.mergeSort (fun a b => decide (localeCompare a.name b.name ≤ 0))

/- ------------------------------------------------------------------ -/
/- Search page: live variant                                           -/
/- ------------------------------------------------------------------ -/

/-- One result item of the live search page (the `Item` type): a document
page returned by the backend. -/
structure Item where
  id : String
  pdf_filename : String
  page_number : Nat
  caption : Option String
  keywords : Option (List String)
  pdf_path : String
deriving DecidableEq

/-- The tag conjunct of the live `filtered` computation: some selected tag
occurs (case-insensitively) among the keywords of the document. -/
def liveTagMatch (selectedTags : List String) (doc : Item) : Bool :=
  selectedTags.any (fun t =>
    ((doc.keywords.getD []).map jsToLower).contains (jsToLower t))

/-- The name sort of the live `filtered` computation:
`out.sort((a, b) => a.pdf_filename.localeCompare(b.pdf_filename))`.
JavaScript `Array.prototype.sort` is a stable sort that places `a` before
`b` when the comparator is nonpositive; this is modelled by the stable
`List.mergeSort`. -/
def sortByName (l : List Item) : List Item :=
  l.mergeSort (fun a b => decide (localeCompare a.pdf_filename b.pdf_filename ≤ 0))

/-- The `filtered` computation of the live search page: the type filter
branch is a no-op (`out.filter(() => true)`), the tag filter keeps items
sharing a selected tag, and `sortBy === "name"` sorts by filename; the
text query does not appear in this computation (it is only sent to the
backend by `runSearch`). -/
def filteredLive (items : List Item) (selectedTypes selectedTags : List String)
    (sortBy : String) : List Item :=
  let out1 := if selectedTypes.isEmpty then items else items.filter (fun _ => true)
  let out2 := if selectedTags.isEmpty then out1 else out1.filter (liveTagMatch selectedTags)
  if sortBy = "name" then sortByName out2 else out2

/-- Modelled from the spec: the three-predicate matching semantics stated
by the specification, instantiated at the live result shape (filename and
keywords; every live result is a PDF document, so its type is `"PDF"`). -/
def specMatchesItem (q : String) (selectedTypes selectedTags : List String)
    (doc : Item) : Prop :=
  (jsIncludes (jsToLower doc.pdf_filename) (jsToLower q) = true ∨
      ∃ t ∈ doc.keywords.getD [], jsIncludes (jsToLower t) (jsToLower q) = true) ∧
    (selectedTypes = [] ∨ "PDF" ∈ selectedTypes) ∧
    (selectedTags = [] ∨ ∃ t ∈ selectedTags, t ∈ doc.keywords.getD [])

instance (q : String) (selectedTypes selectedTags : List String) (doc : Item) :
    Decidable (specMatchesItem q selectedTypes selectedTags doc) := by
  unfold specMatchesItem
  infer_instance

/-- Outcome of the transport of one `runSearch` call: the fetch (or the
JSON parse) threw, or a parsed body with its `ok` flag and results. -/
inductive SearchResponse where
  | netError
  | reply (ok : Bool) (results : List Item)

/-- Final session state of one `runSearch` call: the resulting item list,
the loading flag after the `finally` block, and the list of backend
requests issued (by their query payload). -/
structure SearchOutcome where
  items : List Item
  loading : Bool
  requests : List String
deriving DecidableEq

/-- The `runSearch` function of the live search page: it unconditionally
issues one `POST /search` request with body `{ q: searchQuery }`, replaces
the item list only when the parsed response has `ok` set, and clears the
loading flag in `finally`. -/
def runSearch (q : String) (resp : SearchResponse) (items : List Item) : SearchOutcome :=
  match resp with
  | .netError => { items := items, loading := false, requests := [q] }
  | .reply true results => { items := results, loading := false, requests := [q] }
  | .reply false _ => { items := items, loading := false, requests := [q] }

/- ------------------------------------------------------------------ -/
/- Proxy route (app/api/search/route.ts)                               -/
/- ------------------------------------------------------------------ -/

/-- One row of the backend search response body, as read by the proxy
route. -/
structure BackendRow where
  id : String
  pdf_filename : String
  page_number : Nat
  caption : Option String
  keywords : Option (List String)
  pdf_path : String
deriving DecidableEq

/-- One reshaped result of the proxy response. -/
structure ProxyResult where
  id : String
  caption : String
  keywords : List String
  pdf_path : String
  page_number : Nat
deriving DecidableEq

/-- The proxy response body `{ ok, results }`. -/
structure ProxyResponse where
  ok : Bool
  results : List ProxyResult
deriving DecidableEq

/-- The reshaping of one backend row performed by the route: a missing or
empty caption falls back to the filename, missing keywords to `[]`. -/
def reshapeRow (row : BackendRow) : ProxyResult :=
  { id := row.id,
    caption := jsOrElse row.caption row.pdf_filename,
    keywords := row.keywords.getD [],
    pdf_path := row.pdf_path,
    page_number := row.page_number }

/-- Outcome of the backend fetch performed by the route: the fetch
rejected, the body failed to parse as JSON, or a parsed JSON body carrying
the HTTP success flag `httpOk` (never read by the route), the body flag
`ok` (never read by the route) and the optional `results` array. -/
inductive BackendFetch where
  | unreachable
  | badJson
  | json (httpOk : Bool) (ok : Bool) (results : Option (List BackendRow))

/-- The `POST` handler of the proxy route.  Returns the response
(`Except.error` models the handler throwing, surfaced as a failed
response) together with a flag recording whether the backend was
contacted. -/
def searchRoutePOST (query : String) (backend : BackendFetch) :
    Except Unit ProxyResponse × Bool :=
  if jsTrim query = "" then
    (Except.ok { ok := true, results := [] }, false)
  else
    match backend with
    | .unreachable => (Except.error (), true)
    | .badJson => (Except.error (), true)
    | .json _ _ results =>
      (Except.ok { ok := true, results := (results.getD []).map reshapeRow }, true)

/- ------------------------------------------------------------------ -/
/- Concrete inputs used by witnesses and counterexamples               -/
/- ------------------------------------------------------------------ -/

/-- A valid 1000-byte PDF file. -/
def wFile : JSFile := { name := "a.pdf", type := "application/pdf", size := 1000 }

/-- A file with a disallowed MIME type. -/
def wBadType : JSFile := { name := "notes.txt", type := "text/plain", size := 10 }

/-- A PDF file one byte over the 10MB ceiling. -/
def wTooBig : JSFile := { name := "big.pdf", type := "application/pdf", size := 10485761 }

/-- A valid PDF on which thumbnail rendering throws (see `wPv`). -/
def wCorrupt : JSFile := { name := "corrupt.pdf", type := "application/pdf", size := 2000 }

/-- A second valid PDF, supplied after the corrupt one. -/
def wGood2 : JSFile := { name := "z.pdf", type := "application/pdf", size := 3000 }

/-- A concrete preview generator: rendering throws on `corrupt.pdf` and
succeeds elsewhere. -/
def wPv (f : JSFile) : Option String :=
  if f.name = "corrupt.pdf" then none else some (String.append "preview-" f.name)

/-- A concrete id generator. -/
def wIds (n : Nat) : String := toString n

/-- A pending entry tracked by the session. -/
def wEntry : UploadFile :=
  { id := "id1", file := wFile, progress := 0,
    status := UploadStatus.pending, preview := some "preview-a.pdf" }

/-- The entry after a successful `uploadOne` with two ramp ticks. -/
def wDone : UploadFile :=
  { id := "id1", file := wFile, progress := 100,
    status := UploadStatus.completed, preview := some "preview-a.pdf" }

/-- A concrete operation sequence: the user uploads `wEntry` and the
transfer succeeds after one ramp tick. -/
def wOps : List UploadOp :=
  [UploadOp.start "id1", UploadOp.ramp "id1", UploadOp.finish "id1" true]

/-- A concrete backend item. -/
def wItem : Item :=
  { id := "5", pdf_filename := "panda.pdf", page_number := 1,
    caption := none, keywords := some ["panda", "animal"], pdf_path := "/samples/panda.pdf" }

/-- A backend item whose name and keywords do not contain `zzz`. -/
def wDocA : Item :=
  { id := "1", pdf_filename := "a.pdf", page_number := 1,
    caption := none, keywords := some ["x"], pdf_path := "/samples/a.pdf" }

/-- A backend item named `b.pdf`. -/
def wDocB : Item :=
  { id := "2", pdf_filename := "b.pdf", page_number := 1,
    caption := none, keywords := none, pdf_path := "/samples/b.pdf" }

/-- A mock document named `a.pdf`. -/
def wMockA : MockDoc := { name := "a.pdf", type := "PDF", tags := ["x"] }

/-- A mock document named `b.pdf`. -/
def wMockB : MockDoc := { name := "b.pdf", type := "PDF", tags := ["y"] }

/- ------------------------------------------------------------------ -/
/- Theorems                                                            -/
/- ------------------------------------------------------------------ -/

/-- Claim C4, counterexample: with the empty query, `runSearch` still
issues one backend request (its request list is nonempty), and when that
request happens to succeed with a nonempty result list the result set is
replaced rather than cleared.  The empty-query guard exists only in the
proxy route, which `runSearch` does not use. -/
theorem runSearch_empty_query_counterexample :
    (runSearch "" SearchResponse.netError []).requests ≠ [] ∧
    (runSearch "" (SearchResponse.reply true [wItem]) []).items ≠ [] := by
  decide

/-- Claim C4 (amended): for an empty or whitespace-only query, the proxy
route returns an empty result list without contacting the backend, while
the client-side `runSearch` issues exactly one backend request regardless
of the query and ends with the loading flag cleared. -/
theorem empty_query_amended (q : String) (backend : BackendFetch)
    (resp : SearchResponse) (items : List Item) (hq : jsTrim q = "") :
    searchRoutePOST q backend = (Except.ok { ok := true, results := [] }, false) ∧
    (runSearch q resp items).requests = [q] ∧
    (runSearch q resp items).loading = false := by
  refine ⟨by simp [searchRoutePOST, hq], ?_, ?_⟩ <;>
    rcases resp with _ | ⟨ok, results⟩ <;> first | rfl | (cases ok <;> rfl)

/-- Witness for `empty_query_amended` at the whitespace query. -/
theorem empty_query_amended_witness :
    jsTrim "  " = "" ∧
    searchRoutePOST "  " BackendFetch.unreachable
      = (Except.ok { ok := true, results := [] }, false) :=
  ⟨by decide,
    (empty_query_amended "  " BackendFetch.unreachable SearchResponse.netError []
      (by decide)).1⟩

/-- Claim C5, counterexample: a failed search leaves the previous result
set in place rather than showing zero results — starting from one item,
the session still holds that item after the transport failure (the loading
flag is cleared, as claimed). -/
theorem runSearch_failure_counterexample :
    (runSearch "x" SearchResponse.netError [wItem]).items ≠ [] ∧
    (runSearch "x" SearchResponse.netError [wItem]).loading = false := by
  decide

/-- Claim C5 (amended): on a transport failure or a response without the
`ok` flag, `runSearch` leaves the result set unchanged (it does not clear
it) and clears the loading flag; in particular a failed search from an
empty result set shows zero results. -/
theorem runSearch_failure_amended (q : String) (items results : List Item) :
    runSearch q SearchResponse.netError items
      = { items := items, loading := false, requests := [q] } ∧
    runSearch q (SearchResponse.reply false results) items
      = { items := items, loading := false, requests := [q] } :=
  ⟨rfl, rfl⟩

/-- Claim C9, counterexample: the backend reports failure both at the HTTP
level (`httpOk = false`) and in its JSON body (`ok = false`, no results),
yet the proxy route answers with a success response `{ ok := true,
results := [] }` — the route never reads `r.ok` or `data.ok`. -/
theorem route_success_despite_backend_failure :
    searchRoutePOST "panda" (BackendFetch.json false false none)
      = (Except.ok { ok := true, results := [] }, true) := by
  rfl

/-- Claim C9 (amended): for a nonempty trimmed query, a backend transport
failure (fetch rejection or a non-JSON body) propagates as a proxy-level
failure with no retry and no partial results; but whenever the backend
returns a parseable JSON body the proxy reports `ok := true` regardless of
the backend HTTP status or body `ok` flag, mapping an absent results array
to the empty list. -/
theorem route_failure_propagation_amended (q : String) (hq : jsTrim q ≠ "") :
    searchRoutePOST q BackendFetch.unreachable = (Except.error (), true) ∧
    searchRoutePOST q BackendFetch.badJson = (Except.error (), true) ∧
    ∀ (httpOk ok : Bool) (results : Option (List BackendRow)),
      searchRoutePOST q (BackendFetch.json httpOk ok results)
        = (Except.ok { ok := true, results := (results.getD []).map reshapeRow }, true) := by
  refine ⟨by simp [searchRoutePOST, hq], by simp [searchRoutePOST, hq], ?_⟩
  intro httpOk ok results
  simp [searchRoutePOST, hq]

/-- Witness for `route_failure_propagation_amended` at the query
`panda`. -/
theorem route_failure_propagation_witness :
    jsTrim "panda" ≠ "" ∧
    searchRoutePOST "panda" BackendFetch.unreachable = (Except.error (), true) :=
  ⟨by decide, (route_failure_propagation_amended "panda" (by decide)).1⟩

/-- Claim C6: the live upload page calls `generatePdfThumbnail` from
`handleFiles` with no catch, so one render failure aborts the whole
selection: with a corrupt PDF between two good ones no entry list is
produced at all (the state update never runs), although the first good
file alone would have yielded an entry.  This contradicts the stated
failure policy (degrade to a null preview, never block the surrounding
workflow). -/
theorem handleFiles_render_failure_blocks :
    handleFiles wPv wIds [] [wFile, wCorrupt, wGood2] = none ∧
    handleFiles wPv wIds [] [wFile]
      = some [{ id := "0", file := wFile, progress := 0,
                status := UploadStatus.pending, preview := some "preview-a.pdf" }] := by
  decide

/-- Claim C1, counterexample: in the live search page the displayed list
is not the three-predicate conjunction — with query `zzz` and no type/tag
filters selected, the item `a.pdf` (which matches neither by filename nor
by tag) is still displayed, because the live `filtered` computation never
applies the text-query predicate client-side. -/
theorem live_filtered_ignores_query :
    wDocA ∈ filteredLive [wDocA] [] [] "date" ∧
    ¬ specMatchesItem "zzz" [] [] wDocA := by
  decide

/-- Helper: the `handleFiles` loop, started at any index, succeeds when
the preview generator succeeds on every valid file, and produces exactly
one pending entry per valid file in order, each carrying its generated
preview. -/
theorem handleFilesLoop_spec (pv : JSFile → Option String) (ids : Nat → String)
    (files : List JSFile) :
    ∀ (k : Nat), (∀ f ∈ files, validateFile f = none → (pv f).isSome) →
      ∃ newFiles,
        handleFilesLoop pv ids k files = some newFiles ∧
        newFiles.map (fun e => e.file) = files.filter (fun f => (validateFile f).isNone) ∧
        ∀ e ∈ newFiles, e.status = UploadStatus.pending ∧ e.progress = 0 ∧
          e.preview = pv e.file ∧ validateFile e.file = none := by
  induction files with
  | nil =>
    intro k _
    exact ⟨[], rfl, rfl, by simp⟩
  | cons file rest ih =>
    intro k h
    obtain ⟨tail, htail, hmap, hprops⟩ :=
      ih (k + 1) (fun f hf => h f (List.mem_cons_of_mem _ hf))
    cases hval : validateFile file with
    | some err =>
      refine ⟨tail, ?_, ?_, hprops⟩
      · simp [handleFilesLoop, hval, htail]
      · simp [List.filter_cons, hval, hmap]
    | none =>
      obtain ⟨p, hp⟩ :=
        Option.isSome_iff_exists.mp (h file (List.mem_cons_self _ _) hval)
      refine ⟨{ id := ids k, file := file, progress := 0,
                status := UploadStatus.pending, preview := some p } :: tail, ?_, ?_, ?_⟩
      · simp [handleFilesLoop, hval, hp, htail]
      · simp [List.filter_cons, hval, hmap]
      · intro e he
        rcases List.mem_cons.mp he with rfl | he'
        · exact ⟨rfl, rfl, by simp [hp], hval⟩
        · exact hprops e he'

/-- Claim C2: when preview generation succeeds on every valid file of the
selection, `handleFiles` appends exactly one entry per file passing
validation, in the order supplied, each entry created with status
`pending`, progress 0 and its generated preview; no entry is created for
any rejected file (every appended entry has a valid file, so the entry
collection restricted to rejected files is unchanged). -/
theorem handleFiles_spec (pv : JSFile → Option String) (ids : Nat → String)
    (prev : List UploadFile) (files : List JSFile)
    (hpv : ∀ f ∈ files, validateFile f = none → (pv f).isSome) :
    ∃ newFiles,
      handleFiles pv ids prev files = some (prev ++ newFiles) ∧
      newFiles.map (fun e => e.file) = files.filter (fun f => (validateFile f).isNone) ∧
      ∀ e ∈ newFiles, e.status = UploadStatus.pending ∧ e.progress = 0 ∧
        e.preview = pv e.file ∧ validateFile e.file = none := by
  obtain ⟨newFiles, h1, h2, h3⟩ := handleFilesLoop_spec pv ids files 0 hpv
  exact ⟨newFiles, by simp [handleFiles, h1], h2, h3⟩

/-- Witness for `handleFiles_spec` on a selection holding one valid file,
one file with a bad MIME type and one oversized file. -/
theorem handleFiles_spec_witness :
    (∀ f ∈ [wFile, wBadType, wTooBig], validateFile f = none → (wPv f).isSome) ∧
    ∃ newFiles,
      handleFiles wPv wIds [] [wFile, wBadType, wTooBig] = some ([] ++ newFiles) ∧
      newFiles.map (fun e => e.file)
        = [wFile, wBadType, wTooBig].filter (fun f => (validateFile f).isNone) ∧
      ∀ e ∈ newFiles, e.status = UploadStatus.pending ∧ e.progress = 0 ∧
        e.preview = wPv e.file ∧ validateFile e.file = none :=
  ⟨by decide, handleFiles_spec wPv wIds [] [wFile, wBadType, wTooBig] (by decide)⟩

/-- Claim C3: `uploadOne` first sets the entry to `"uploading"` (its first
state update), and after the transfer the entry ends `"completed"` with
progress 100 when the request succeeded, and `"error"` when the request
failed or returned a non-success response. -/
theorem uploadOne_lifecycle (i : String) (ok : Bool) (ticks : Nat) (l : List UploadFile) :
    (∀ e ∈ uploadOneStart i l, e.id = i → e.status = UploadStatus.uploading) ∧
    ∀ e ∈ uploadOne i ok ticks l, e.id = i →
      (ok = true → e.status = UploadStatus.completed ∧ e.progress = 100) ∧
      (ok = false → e.status = UploadStatus.error) := by
  constructor
  · intro e he hei
    simp only [uploadOneStart] at he
    obtain ⟨f, hf, hgf⟩ := List.mem_map.mp he
    by_cases hid : (f.id == i) = true
    · simp only [hid, if_true] at hgf
      subst hgf
      rfl
    · simp only [hid, if_false] at hgf
      subst hgf
      exact absurd (beq_iff_eq.mpr hei) hid
  · intro e he hei
    cases ok with
    | true =>
      simp only [uploadOne, uploadOneFinish, if_true] at he
      obtain ⟨f, hf, hgf⟩ := List.mem_map.mp he
      by_cases hid : (f.id == i) = true
      · simp only [hid, if_true] at hgf
        subst hgf
        exact ⟨fun _ => ⟨rfl, rfl⟩, fun h => by simp at h⟩
      · simp only [hid, if_false] at hgf
        subst hgf
        exact absurd (beq_iff_eq.mpr hei) hid
    | false =>
      simp only [uploadOne, uploadOneFinish, Bool.false_eq_true, if_false] at he
      obtain ⟨f, hf, hgf⟩ := List.mem_map.mp he
      by_cases hid : (f.id == i) = true
      · simp only [hid, if_true] at hgf
        subst hgf
        exact ⟨fun h => by simp at h, fun _ => rfl⟩
      · simp only [hid, if_false] at hgf
        subst hgf
        exact absurd (beq_iff_eq.mpr hei) hid

/-- Witness for `uploadOne_lifecycle`: uploading the pending entry
`wEntry` with a successful transfer and two ramp ticks ends in the
completed entry `wDone` with progress 100. -/
theorem uploadOne_lifecycle_witness :
    wDone ∈ uploadOne "id1" true 2 [wEntry] ∧
    (wDone.status = UploadStatus.completed ∧ wDone.progress = 100) :=
  ⟨by decide,
    ((uploadOne_lifecycle "id1" true 2 [wEntry]).2 wDone (by decide) (by decide)).1 rfl⟩

/-- Helper: searching by id commutes with mapping an id-preserving
update over the entry list. -/
theorem find?_map_id_pres (g : UploadFile → UploadFile) (hg : ∀ f, (g f).id = f.id)
    (l : List UploadFile) (i : String) :
    (l.map g).find? (fun f => f.id == i) = (l.find? (fun f => f.id == i)).map g := by
  rw [List.find?_map]
  have hp : ((fun f : UploadFile => f.id == i) ∘ g) = fun f => f.id == i := by
    funext f
    simp [Function.comp, hg]
  rw [hp]

/-- Helper: a filter that keeps every element satisfying the search
predicate does not change the result of the search. -/
theorem find?_filter_keep {α : Type} (l : List α) (p q : α → Bool)
    (hpq : ∀ a, p a = true → q a = true) :
    (l.filter q).find? p = l.find? p := by
  induction l with
  | nil => rfl
  | cons a l ih =>
    by_cases hq : q a = true
    · by_cases hp : p a = true <;> simp [List.filter_cons, hq, List.find?_cons, hp, ih]
    · have hp : ¬ p a = true := fun hpa => hq (hpq a hpa)
      simp [List.filter_cons, hq, List.find?_cons, hp, ih]

/-- Helper: a filter that drops every element satisfying the search
predicate leaves nothing to find. -/
theorem find?_filter_drop {α : Type} (l : List α) (p q : α → Bool)
    (hpq : ∀ a, p a = true → q a = false) :
    (l.filter q).find? p = none := by
  induction l with
  | nil => rfl
  | cons a l ih =>
    by_cases hq : q a = true
    · have hp : ¬ p a = true := fun hpa => by simp [hpq a hpa] at hq
      simp [List.filter_cons, hq, List.find?_cons, hp, ih]
    · simp [List.filter_cons, hq, ih]

/-- Helper: both terminal states sit at the top of the lifecycle order. -/
theorem statusRank_le_two (st : UploadStatus) : statusRank st ≤ 2 := by
  cases st <;> simp [statusRank]

/-- Helper: the status seen after an id-preserving map is the status of
the update applied to the found entry. -/
theorem statusOf_map_eq (g : UploadFile → UploadFile) (hg : ∀ f, (g f).id = f.id)
    (l : List UploadFile) (i : String) (e : UploadFile)
    (hfind : l.find? (fun f => f.id == i) = some e)
    (st' : UploadStatus) (h' : statusOf (l.map g) i = some st') :
    st' = (g e).status := by
  rw [statusOf, find?_map_id_pres g hg, hfind] at h'
  simpa using h'.symm

/-- Helper: the preview seen after an id-preserving map is the preview of
the update applied to the found entry. -/
theorem previewOf_map_eq (g : UploadFile → UploadFile) (hg : ∀ f, (g f).id = f.id)
    (l : List UploadFile) (i : String) (e : UploadFile)
    (hfind : l.find? (fun f => f.id == i) = some e)
    (p' : Option String) (h' : previewOf (l.map g) i = some p') :
    p' = (g e).preview := by
  rw [previewOf, find?_map_id_pres g hg, hfind] at h'
  simpa using h'.symm

/-- Helper: every update function used by the upload operations preserves
the entry id (start form). -/
theorem startUpd_id (i' : String) :
    ∀ f : UploadFile,
      ((if f.id == i' then
          { f with status := UploadStatus.uploading, progress := 5 } else f) : UploadFile).id
        = f.id := by
  intro f
  by_cases hc : (f.id == i') = true <;> simp [hc]

/-- Helper: no operation of the upload session moves an entry backward in
the lifecycle order pending → uploading → (completed | error), as long as
entry identifiers are distinct in the state the operation acts on. -/
theorem stepOp_status_mono (op : UploadOp) (l : List UploadFile) (i : String)
    (st st' : UploadStatus)
    (hnd : (l.map (fun f => f.id)).Nodup)
    (h : statusOf l i = some st)
    (h' : statusOf (stepOp op l) i = some st') :
    statusRank st ≤ statusRank st' := by
  rcases hfind : l.find? (fun f => f.id == i) with _ | e
  · rw [statusOf, hfind] at h
    simp at h
  have hst : e.status = st := by
    rw [statusOf, hfind] at h
    simpa using h
  have hmem : e ∈ l := List.mem_of_find?_eq_some hfind
  cases op with
  | add pv ids files =>
    rcases hloop : handleFilesLoop pv ids 0 files with _ | newFiles
    · simp only [stepOp, hloop] at h'
      rw [statusOf, hfind] at h'
      simp at h'
      exact le_of_eq (by rw [← hst, h'])
    · simp only [stepOp, hloop] at h'
      rw [statusOf, List.find?_append, hfind] at h'
      simp at h'
      exact le_of_eq (by rw [← hst, h'])
  | start i' =>
    by_cases hguard :
        l.any (fun f => f.id == i' && f.status == UploadStatus.pending) = true
    · simp only [stepOp] at h'
      rw [if_pos hguard] at h'
      have hstep := statusOf_map_eq _ (startUpd_id i') l i e hfind st' h'
      by_cases hei' : (e.id == i') = true
      · rw [if_pos hei'] at hstep
        obtain ⟨f, hfmem, hfprop⟩ := List.any_eq_true.mp hguard
        have hf1 : f.id = i' := by
          have := (Bool.and_eq_true _ _).mp hfprop
          exact beq_iff_eq.mp this.1
        have hf2 : f.status = UploadStatus.pending := by
          have := (Bool.and_eq_true _ _).mp hfprop
          exact beq_iff_eq.mp this.2
        have hfe : f = e := by
          apply List.inj_on_of_nodup_map hnd hfmem hmem
          rw [hf1]
          exact (beq_iff_eq.mp hei').symm
        have hpend : st = UploadStatus.pending := by
          rw [← hst, ← hfe, hf2]
        rw [hpend, hstep]
        simp [statusRank]
      · rw [if_neg hei'] at hstep
        exact le_of_eq (by rw [← hst, hstep])
    · simp only [stepOp] at h'
      rw [if_neg hguard] at h'
      rw [statusOf, hfind] at h'
      simp at h'
      exact le_of_eq (by rw [← hst, h'])
  | startSim i' =>
    by_cases hguard :
        l.any (fun f => f.id == i' && f.status == UploadStatus.pending) = true
    · simp only [stepOp] at h'
      rw [if_pos hguard] at h'
      have hg : ∀ f : UploadFile,
          ((if f.id == i' then { f with status := UploadStatus.uploading } else f) :
            UploadFile).id = f.id := by
        intro f
        by_cases hc : (f.id == i') = true <;> simp [hc]
      have hstep := statusOf_map_eq _ hg l i e hfind st' h'
      by_cases hei' : (e.id == i') = true
      · rw [if_pos hei'] at hstep
        obtain ⟨f, hfmem, hfprop⟩ := List.any_eq_true.mp hguard
        have hf1 : f.id = i' := by
          have := (Bool.and_eq_true _ _).mp hfprop
          exact beq_iff_eq.mp this.1
        have hf2 : f.status = UploadStatus.pending := by
          have := (Bool.and_eq_true _ _).mp hfprop
          exact beq_iff_eq.mp this.2
        have hfe : f = e := by
          apply List.inj_on_of_nodup_map hnd hfmem hmem
          rw [hf1]
          exact (beq_iff_eq.mp hei').symm
        have hpend : st = UploadStatus.pending := by
          rw [← hst, ← hfe, hf2]
        rw [hpend, hstep]
        simp [statusRank]
      · rw [if_neg hei'] at hstep
        exact le_of_eq (by rw [← hst, hstep])
    · simp only [stepOp] at h'
      rw [if_neg hguard] at h'
      rw [statusOf, hfind] at h'
      simp at h'
      exact le_of_eq (by rw [← hst, h'])
  | ramp i' =>
    have hg : ∀ f : UploadFile,
        ((if f.id == i' && f.status == UploadStatus.uploading then
            { f with progress := min (f.progress + 7) 85 } else f) : UploadFile).id
          = f.id := by
      intro f
      by_cases hc : (f.id == i' && f.status == UploadStatus.uploading) = true <;> simp [hc]
    have h'' : statusOf (l.map (fun f =>
        if f.id == i' && f.status == UploadStatus.uploading then
          { f with progress := min (f.progress + 7) 85 } else f)) i = some st' := by
      simpa [stepOp, uploadOneRamp] using h'
    have hstep := statusOf_map_eq _ hg l i e hfind st' h''
    by_cases hc : (e.id == i' && e.status == UploadStatus.uploading) = true
    · rw [if_pos hc] at hstep
      exact le_of_eq (by rw [← hst, hstep])
    · rw [if_neg hc] at hstep
      exact le_of_eq (by rw [← hst, hstep])
  | tick i' r =>
    have hg : ∀ f : UploadFile,
        ((if f.id == i' && f.status == UploadStatus.uploading then
            if 100 ≤ f.progress + r then
              { f with progress := 100, status := UploadStatus.completed }
            else { f with progress := f.progress + r }
          else f) : UploadFile).id = f.id := by
      intro f
      by_cases hc : (f.id == i' && f.status == UploadStatus.uploading) = true
      · by_cases hc2 : 100 ≤ f.progress + r <;> simp [hc, hc2]
      · simp [hc]
    have h'' : statusOf (l.map (fun f =>
        if f.id == i' && f.status == UploadStatus.uploading then
          if 100 ≤ f.progress + r then
            { f with progress := 100, status := UploadStatus.completed }
          else { f with progress := f.progress + r }
        else f)) i = some st' := by
      simpa [stepOp, simulateUploadTick] using h'
    have hstep := statusOf_map_eq _ hg l i e hfind st' h''
    by_cases hc : (e.id == i' && e.status == UploadStatus.uploading) = true
    · by_cases hc2 : 100 ≤ e.progress + r
      · rw [if_pos hc, if_pos hc2] at hstep
        simpa [hstep, statusRank] using statusRank_le_two st
      · rw [if_pos hc, if_neg hc2] at hstep
        exact le_of_eq (by rw [← hst, hstep])
    · rw [if_neg hc] at hstep
      exact le_of_eq (by rw [← hst, hstep])
  | finish i' ok =>
    cases ok with
    | true =>
      have hg : ∀ f : UploadFile,
          ((if f.id == i' then
              { f with status := UploadStatus.completed, progress := 100 } else f) :
            UploadFile).id = f.id := by
        intro f
        by_cases hc : (f.id == i') = true <;> simp [hc]
      have h'' : statusOf (l.map (fun f =>
          if f.id == i' then
            { f with status := UploadStatus.completed, progress := 100 } else f)) i
            = some st' := by
        simpa [stepOp, uploadOneFinish] using h'
      have hstep := statusOf_map_eq _ hg l i e hfind st' h''
      by_cases hei' : (e.id == i') = true
      · rw [if_pos hei'] at hstep
        simpa [hstep, statusRank] using statusRank_le_two st
      · rw [if_neg hei'] at hstep
        exact le_of_eq (by rw [← hst, hstep])
    | false =>
      have hg : ∀ f : UploadFile,
          ((if f.id == i' then { f with status := UploadStatus.error } else f) :
            UploadFile).id = f.id := by
        intro f
        by_cases hc : (f.id == i') = true <;> simp [hc]
      have h'' : statusOf (l.map (fun f =>
          if f.id == i' then { f with status := UploadStatus.error } else f)) i
            = some st' := by
        simpa [stepOp, uploadOneFinish] using h'
      have hstep := statusOf_map_eq _ hg l i e hfind st' h''
      by_cases hei' : (e.id == i') = true
      · rw [if_pos hei'] at hstep
        simpa [hstep, statusRank] using statusRank_le_two st
      · rw [if_neg hei'] at hstep
        exact le_of_eq (by rw [← hst, hstep])
  | remove i' =>
    by_cases hii : i = i'
    · subst hii
      have hdrop := find?_filter_drop l (fun f => f.id == i) (fun f => !(f.id == i))
        (fun a ha => by simp [ha])
      simp only [stepOp, removeFile] at h'
      rw [statusOf, hdrop] at h'
      simp at h'
    · have hkeep := find?_filter_keep l (fun f => f.id == i) (fun f => !(f.id == i'))
        (fun a ha => by
          have haa : a.id = i := beq_iff_eq.mp ha
          simp [haa, hii])
      simp only [stepOp, removeFile] at h'
      rw [statusOf, hkeep, hfind] at h'
      simp at h'
      exact le_of_eq (by rw [← hst, h'])

/-- Helper: the starting state is among the run states. -/
theorem self_mem_runStates (l : List UploadFile) (ops : List UploadOp) :
    l ∈ runStates l ops := by
  cases ops <;> simp [runStates]

/-- Claim C7: along any sequence of upload-session operations
(`handleFiles` additions, `uploadOne` and `simulateUpload` starts — only
reachable for pending entries — progress ticks, transfer completions and
removals), the status of an entry never moves backward in the order
pending → uploading → (completed | error); in particular a completed
entry never returns to pending or uploading.  The hypotheses say that the
entry identifiers stay distinct (the client generates random ids) and
that the observed entry exists in every intermediate state. -/
theorem upload_status_never_backward (s : List UploadFile) (ops : List UploadOp)
    (i : String) (st st' : UploadStatus)
    (hnd : ∀ t ∈ runStates s ops, (t.map (fun f => f.id)).Nodup)
    (hlive : ∀ t ∈ runStates s ops, (statusOf t i).isSome)
    (h : statusOf s i = some st)
    (h' : statusOf (runOps s ops) i = some st') :
    statusRank st ≤ statusRank st' := by
  induction ops generalizing s st with
  | nil =>
    simp only [runOps] at h'
    have he : st = st' := by
      have := h.symm.trans h'
      simpa using this
    exact le_of_eq (by rw [he])
  | cons op ops ih =>
    have hmem0 : s ∈ runStates s (op :: ops) := by
      simp [runStates]
    have hmem1 : stepOp op s ∈ runStates s (op :: ops) := by
      simp only [runStates, List.mem_cons]
      exact Or.inr (self_mem_runStates _ _)
    obtain ⟨st1, hst1⟩ := Option.isSome_iff_exists.mp (hlive _ hmem1)
    have hstep := stepOp_status_mono op s i st st1 (hnd s hmem0) h hst1
    have hrest := ih (stepOp op s) st1
      (fun t ht => hnd t (by simp only [runStates, List.mem_cons]; exact Or.inr ht))
      (fun t ht => hlive t (by simp only [runStates, List.mem_cons]; exact Or.inr ht))
      hst1 (by simpa [runOps] using h')
    exact le_trans hstep hrest

/-- Witness for `upload_status_never_backward`: one pending entry is
started, ramped once and completed; its status goes from pending to
completed, never backward. -/
theorem upload_status_never_backward_witness :
    (∀ t ∈ runStates [wEntry] wOps, (t.map (fun f => f.id)).Nodup) ∧
    (∀ t ∈ runStates [wEntry] wOps, (statusOf t "id1").isSome) ∧
    statusOf [wEntry] "id1" = some UploadStatus.pending ∧
    statusOf (runOps [wEntry] wOps) "id1" = some UploadStatus.completed ∧
    statusRank UploadStatus.pending ≤ statusRank UploadStatus.completed :=
  ⟨by decide, by decide, by decide, by decide,
    upload_status_never_backward [wEntry] wOps "id1" UploadStatus.pending
      UploadStatus.completed (by decide) (by decide) (by decide) (by decide)⟩

/-- Helper: no operation of the upload session changes the preview of an
entry that remains present. -/
theorem stepOp_preview_frame (op : UploadOp) (l : List UploadFile) (i : String)
    (p p' : Option String)
    (h : previewOf l i = some p)
    (h' : previewOf (stepOp op l) i = some p') :
    p' = p := by
  rcases hfind : l.find? (fun f => f.id == i) with _ | e
  · rw [previewOf, hfind] at h
    simp at h
  have hp : e.preview = p := by
    rw [previewOf, hfind] at h
    simpa using h
  cases op with
  | add pv ids files =>
    rcases hloop : handleFilesLoop pv ids 0 files with _ | newFiles
    · simp only [stepOp, hloop] at h'
      rw [previewOf, hfind] at h'
      simp at h'
      rw [← hp, h']
    · simp only [stepOp, hloop] at h'
      rw [previewOf, List.find?_append, hfind] at h'
      simp at h'
      rw [← hp, h']
  | start i' =>
    by_cases hguard :
        l.any (fun f => f.id == i' && f.status == UploadStatus.pending) = true
    · simp only [stepOp] at h'
      rw [if_pos hguard] at h'
      have hstep := previewOf_map_eq _ (startUpd_id i') l i e hfind p' h'
      by_cases hei' : (e.id == i') = true
      · rw [if_pos hei'] at hstep
        rw [hstep, ← hp]
      · rw [if_neg hei'] at hstep
        rw [hstep, ← hp]
    · simp only [stepOp] at h'
      rw [if_neg hguard] at h'
      rw [previewOf, hfind] at h'
      simp at h'
      rw [← hp, h']
  | startSim i' =>
    by_cases hguard :
        l.any (fun f => f.id == i' && f.status == UploadStatus.pending) = true
    · simp only [stepOp] at h'
      rw [if_pos hguard] at h'
      have hg : ∀ f : UploadFile,
          ((if f.id == i' then { f with status := UploadStatus.uploading } else f) :
            UploadFile).id = f.id := by
        intro f
        by_cases hc : (f.id == i') = true <;> simp [hc]
      have hstep := previewOf_map_eq _ hg l i e hfind p' h'
      by_cases hei' : (e.id == i') = true
      · rw [if_pos hei'] at hstep
        rw [hstep, ← hp]
      · rw [if_neg hei'] at hstep
        rw [hstep, ← hp]
    · simp only [stepOp] at h'
      rw [if_neg hguard] at h'
      rw [previewOf, hfind] at h'
      simp at h'
      rw [← hp, h']
  | ramp i' =>
    have hg : ∀ f : UploadFile,
        ((if f.id == i' && f.status == UploadStatus.uploading then
            { f with progress := min (f.progress + 7) 85 } else f) : UploadFile).id
          = f.id := by
      intro f
      by_cases hc : (f.id == i' && f.status == UploadStatus.uploading) = true <;> simp [hc]
    have h'' : previewOf (l.map (fun f =>
        if f.id == i' && f.status == UploadStatus.uploading then
          { f with progress := min (f.progress + 7) 85 } else f)) i = some p' := by
      simpa [stepOp, uploadOneRamp] using h'
    have hstep := previewOf_map_eq _ hg l i e hfind p' h''
    by_cases hc : (e.id == i' && e.status == UploadStatus.uploading) = true
    · rw [if_pos hc] at hstep
      rw [hstep, ← hp]
    · rw [if_neg hc] at hstep
      rw [hstep, ← hp]
  | tick i' r =>
    have hg : ∀ f : UploadFile,
        ((if f.id == i' && f.status == UploadStatus.uploading then
            if 100 ≤ f.progress + r then
              { f with progress := 100, status := UploadStatus.completed }
            else { f with progress := f.progress + r }
          else f) : UploadFile).id = f.id := by
      intro f
      by_cases hc : (f.id == i' && f.status == UploadStatus.uploading) = true
      · by_cases hc2 : 100 ≤ f.progress + r <;> simp [hc, hc2]
      · simp [hc]
    have h'' : previewOf (l.map (fun f =>
        if f.id == i' && f.status == UploadStatus.uploading then
          if 100 ≤ f.progress + r then
            { f with progress := 100, status := UploadStatus.completed }
          else { f with progress := f.progress + r }
        else f)) i = some p' := by
      simpa [stepOp, simulateUploadTick] using h'
    have hstep := previewOf_map_eq _ hg l i e hfind p' h''
    by_cases hc : (e.id == i' && e.status == UploadStatus.uploading) = true
    · by_cases hc2 : 100 ≤ e.progress + r
      · rw [if_pos hc, if_pos hc2] at hstep
        rw [hstep, ← hp]
      · rw [if_pos hc, if_neg hc2] at hstep
        rw [hstep, ← hp]
    · rw [if_neg hc] at hstep
      rw [hstep, ← hp]
  | finish i' ok =>
    cases ok with
    | true =>
      have hg : ∀ f : UploadFile,
          ((if f.id == i' then
              { f with status := UploadStatus.completed, progress := 100 } else f) :
            UploadFile).id = f.id := by
        intro f
        by_cases hc : (f.id == i') = true <;> simp [hc]
      have h'' : previewOf (l.map (fun f =>
          if f.id == i' then
            { f with status := UploadStatus.completed, progress := 100 } else f)) i
            = some p' := by
        simpa [stepOp, uploadOneFinish] using h'
      have hstep := previewOf_map_eq _ hg l i e hfind p' h''
      by_cases hei' : (e.id == i') = true
      · rw [if_pos hei'] at hstep
        rw [hstep, ← hp]
      · rw [if_neg hei'] at hstep
        rw [hstep, ← hp]
    | false =>
      have hg : ∀ f : UploadFile,
          ((if f.id == i' then { f with status := UploadStatus.error } else f) :
            UploadFile).id = f.id := by
        intro f
        by_cases hc : (f.id == i') = true <;> simp [hc]
      have h'' : previewOf (l.map (fun f =>
          if f.id == i' then { f with status := UploadStatus.error } else f)) i
            = some p' := by
        simpa [stepOp, uploadOneFinish] using h'
      have hstep := previewOf_map_eq _ hg l i e hfind p' h''
      by_cases hei' : (e.id == i') = true
      · rw [if_pos hei'] at hstep
        rw [hstep, ← hp]
      · rw [if_neg hei'] at hstep
        rw [hstep, ← hp]
  | remove i' =>
    by_cases hii : i = i'
    · subst hii
      have hdrop := find?_filter_drop l (fun f => f.id == i) (fun f => !(f.id == i))
        (fun a ha => by simp [ha])
      simp only [stepOp, removeFile] at h'
      rw [previewOf, hdrop] at h'
      simp at h'
    · have hkeep := find?_filter_keep l (fun f => f.id == i) (fun f => !(f.id == i'))
        (fun a ha => by
          have haa : a.id = i := beq_iff_eq.mp ha
          simp [haa, hii])
      simp only [stepOp, removeFile] at h'
      rw [previewOf, hkeep, hfind] at h'
      simp at h'
      rw [← hp, h']

/-- Helper: whenever the `handleFiles` loop succeeds, every produced
entry carries exactly the preview generated for its file. -/
theorem handleFilesLoop_preview (pv : JSFile → Option String) (ids : Nat → String)
    (files : List JSFile) :
    ∀ (k : Nat) (newFiles : List UploadFile),
      handleFilesLoop pv ids k files = some newFiles →
      ∀ e ∈ newFiles, e.preview = pv e.file ∧ e.preview.isSome := by
  induction files with
  | nil =>
    intro k newFiles hrun e he
    simp only [handleFilesLoop] at hrun
    injection hrun with hrun2
    rw [← hrun2] at he
    simp at he
  | cons file rest ih =>
    intro k newFiles hrun e he
    cases hval : validateFile file with
    | some err =>
      simp only [handleFilesLoop, hval] at hrun
      exact ih (k + 1) newFiles hrun e he
    | none =>
      cases hpvf : pv file with
      | none =>
        simp only [handleFilesLoop, hval, hpvf] at hrun
        exact Option.noConfusion hrun
      | some pre =>
        simp only [handleFilesLoop, hval, hpvf] at hrun
        rcases htail : handleFilesLoop pv ids (k + 1) rest with _ | tail
        · rw [htail] at hrun
          simp at hrun
        · rw [htail] at hrun
          simp only [Option.map_some'] at hrun
          injection hrun with hrun2
          rw [← hrun2] at he
          rcases List.mem_cons.mp he with rfl | he'
          · exact ⟨by simp [hpvf], by simp⟩
          · exact ih (k + 1) tail htail e he'

/-- Helper: along any operation sequence during which an entry stays
present, its preview is unchanged. -/
theorem runOps_preview_frame (ops : List UploadOp) :
    ∀ (s : List UploadFile) (i : String) (p : Option String),
      (∀ t ∈ runStates s ops, (previewOf t i).isSome) →
      previewOf s i = some p →
      previewOf (runOps s ops) i = some p := by
  induction ops with
  | nil =>
    intro s i p _ h
    simpa [runOps] using h
  | cons op ops ih =>
    intro s i p hlive h
    have hmem1 : stepOp op s ∈ runStates s (op :: ops) := by
      simp only [runStates, List.mem_cons]
      exact Or.inr (self_mem_runStates _ _)
    obtain ⟨p1, hp1⟩ := Option.isSome_iff_exists.mp (hlive _ hmem1)
    have hframe := stepOp_preview_frame op s i p p1 h hp1
    subst hframe
    have hrest := ih (stepOp op s) i p1
      (fun t ht => hlive t (by simp only [runStates, List.mem_cons]; exact Or.inr ht))
      hp1
    simpa [runOps] using hrest

/-- Claim C8: the preview of an entry is fixed at creation and never
touched again.  First part: along any operation sequence during which the
entry stays present, its preview is unchanged (no operation modifies or
recomputes it).  Second part: every entry produced by a `handleFiles`
call carries exactly the preview computed for its file at creation. -/
theorem preview_computed_once (s : List UploadFile) (ops : List UploadOp)
    (i : String) (p : Option String)
    (hlive : ∀ t ∈ runStates s ops, (previewOf t i).isSome)
    (h : previewOf s i = some p) :
    previewOf (runOps s ops) i = some p ∧
    ∀ (pv : JSFile → Option String) (ids : Nat → String) (files : List JSFile)
      (newFiles : List UploadFile),
      handleFilesLoop pv ids 0 files = some newFiles →
      ∀ e ∈ newFiles, e.preview = pv e.file :=
  ⟨runOps_preview_frame ops s i p hlive h,
    fun pv ids files newFiles hrun e he =>
      (handleFilesLoop_preview pv ids files 0 newFiles hrun e he).1⟩

/-- Witness for `preview_computed_once`: through a full upload of the
entry `wEntry` its preview stays the generated data URL. -/
theorem preview_computed_once_witness :
    (∀ t ∈ runStates [wEntry] wOps, (previewOf t "id1").isSome) ∧
    previewOf [wEntry] "id1" = some (some "preview-a.pdf") ∧
    previewOf (runOps [wEntry] wOps) "id1" = some (some "preview-a.pdf") :=
  ⟨by decide, by decide,
    (preview_computed_once [wEntry] wOps "id1" (some "preview-a.pdf")
      (by decide) (by decide)).1⟩

/-- Helper: `lexCompare` answers `gt` exactly when the reversed pair is
lexicographically smaller. -/
theorem lexCompare_eq_gt_iff : ∀ as bs : List Char,
    lexCompare as bs = .gt ↔ List.Lex (· < ·) bs as
  | [], [] => by
    simp only [lexCompare]
    constructor
    · intro h
      cases h
    · intro h
      cases h
  | [], _ :: _ => by
    simp only [lexCompare]
    constructor
    · intro h
      cases h
    · intro h
      cases h
  | _ :: _, [] => by
    simp only [lexCompare]
    exact ⟨fun _ => List.Lex.nil, fun _ => trivial⟩
  | a :: as, b :: bs => by
    simp only [lexCompare]
    by_cases hab : a < b
    · simp only [hab, if_true]
      constructor
      · intro h
        cases h
      · intro h
        cases h with
        | cons h' => exact absurd hab (lt_irrefl a)
        | rel h' => exact absurd hab (asymm h')
    · by_cases hba : b < a
      · simp only [hab, if_false, hba, if_true]
        exact ⟨fun _ => List.Lex.rel hba, fun _ => trivial⟩
      · have heq : a = b := le_antisymm (le_of_not_lt hba) (le_of_not_lt hab)
        subst heq
        simp only [hab, if_false, lt_irrefl, if_false]
        rw [lexCompare_eq_gt_iff as bs]
        constructor
        · intro h
          exact List.Lex.cons h
        · intro h
          cases h with
          | cons h' => exact h'
          | rel h' => exact absurd h' (lt_irrefl a)

/-- Helper: a nonpositive `localeCompare` is exactly the lexicographic
order on strings. -/
theorem localeCompare_le_iff (a b : String) :
    decide (localeCompare a b ≤ 0) = true ↔ a ≤ b := by
  rw [decide_eq_true_iff]
  have h1 : localeCompare a b ≤ 0 ↔ ¬ lexCompare a.data b.data = .gt := by
    unfold localeCompare
    cases hc : lexCompare a.data b.data <;> simp
  have h2 : (b < a) ↔ List.Lex (· < ·) b.data a.data := String.lt_iff_toList_lt
  rw [h1, lexCompare_eq_gt_iff]
  exact (not_congr h2).symm

/-- Helper: the comparator-based order used by the name sort is
transitive. -/
theorem keyedSort_trans {α : Type} (key : α → String) :
    ∀ a b c : α, decide (localeCompare (key a) (key b) ≤ 0) = true →
      decide (localeCompare (key b) (key c) ≤ 0) = true →
      decide (localeCompare (key a) (key c) ≤ 0) = true := by
  intro a b c hab hbc
  rw [localeCompare_le_iff] at hab hbc ⊢
  exact le_trans hab hbc

/-- Helper: the comparator-based order used by the name sort is total. -/
theorem keyedSort_total {α : Type} (key : α → String) :
    ∀ a b : α, (decide (localeCompare (key a) (key b) ≤ 0)
        || decide (localeCompare (key b) (key a) ≤ 0)) = true := by
  intro a b
  rw [Bool.or_eq_true, localeCompare_le_iff, localeCompare_le_iff]
  exact le_total _ _

/-- Helper: merge sort of a two-element list compares the two elements
once. -/
theorem mergeSort_pair {α : Type} (le : α → α → Bool) (a b : α) :
    [a, b].mergeSort le = if le a b then [a, b] else [b, a] := by
  rw [List.mergeSort]
  simp [List.splitInTwo, List.splitAt, List.splitAt.go, List.mergeSort, List.merge]

/-- Helper: the name sort emits the items in lexicographically ascending
filename order. -/
theorem sortByName_sorted (l : List Item) :
    (sortByName l).Pairwise (fun a b => a.pdf_filename ≤ b.pdf_filename) := by
  have h : (sortByName l).Pairwise
      (fun a b : Item => decide (localeCompare a.pdf_filename b.pdf_filename ≤ 0) = true) := by
    unfold sortByName
    exact List.sorted_mergeSort
      (fun a b c hab hbc => keyedSort_trans (fun d : Item => d.pdf_filename) a b c hab hbc)
      (fun a b => keyedSort_total (fun d : Item => d.pdf_filename) a b) l
  exact h.imp (fun hab => (localeCompare_le_iff _ _).mp hab)

/-- Helper: the name sort is stable — the subsequence of items carrying
any fixed filename is exactly the one of the input list. -/
theorem sortByName_stable (l : List Item) (n : String) :
    (sortByName l).filter (fun d => d.pdf_filename == n)
      = l.filter (fun d => d.pdf_filename == n) := by
  have hpair : (l.filter (fun d => d.pdf_filename == n)).Pairwise
      (fun a b : Item => decide (localeCompare a.pdf_filename b.pdf_filename ≤ 0) = true) := by
    apply List.pairwise_of_forall_mem_list
    intro a ha b hb
    have ha2 : a.pdf_filename = n := beq_iff_eq.mp (List.mem_filter.mp ha).2
    have hb2 : b.pdf_filename = n := beq_iff_eq.mp (List.mem_filter.mp hb).2
    rw [localeCompare_le_iff, ha2, hb2]
  have hsub : List.Sublist (l.filter (fun d => d.pdf_filename == n)) l :=
    List.filter_sublist l
  have hsub2 := List.sublist_mergeSort
    (fun a b c hab hbc => keyedSort_trans (fun d : Item => d.pdf_filename) a b c hab hbc)
    (fun a b => keyedSort_total (fun d : Item => d.pdf_filename) a b) hpair hsub
  have hidem : ((l.filter (fun d => d.pdf_filename == n)).filter
      (fun d => d.pdf_filename == n)) = l.filter (fun d => d.pdf_filename == n) :=
    List.filter_eq_self.mpr (fun a ha => (List.mem_filter.mp ha).2)
  have h1 : List.Sublist (l.filter (fun d => d.pdf_filename == n))
      ((sortByName l).filter (fun d => d.pdf_filename == n)) := by
    rw [sortByName]
    rw [← hidem]
    exact hsub2.filter _
  have hlen : ((sortByName l).filter (fun d => d.pdf_filename == n)).length
      = (l.filter (fun d => d.pdf_filename == n)).length := by
    rw [sortByName]
    exact ((List.mergeSort_perm l _).filter _).length_eq
  exact (h1.eq_of_length hlen.symm).symm

/-- Claim C10: sorting by the name key is a permutation of the result
set, lexicographically ascending by filename, and stable (items with
equal filenames keep their relative order); in particular filenames
`b.pdf`, `a.pdf` sort to `a.pdf`, `b.pdf`, both in the live variant and
in the mock variant. -/
theorem sortByName_lexicographic_stable :
    (∀ l : List Item, List.Perm (sortByName l) l) ∧
    (∀ l : List Item,
      (sortByName l).Pairwise (fun a b => a.pdf_filename ≤ b.pdf_filename)) ∧
    (∀ (l : List Item) (n : String),
      (sortByName l).filter (fun d => d.pdf_filename == n)
        = l.filter (fun d => d.pdf_filename == n)) ∧
    sortByName [wDocB, wDocA] = [wDocA, wDocB] ∧
    mockSortByName [wMockB, wMockA] = [wMockA, wMockB] := by
  refine ⟨?_, sortByName_sorted, sortByName_stable, ?_, ?_⟩
  · intro l
    rw [sortByName]
    exact List.mergeSort_perm l _
  · rw [sortByName, mergeSort_pair]
    have hc : decide (localeCompare wDocB.pdf_filename wDocA.pdf_filename ≤ 0) = false := by
      decide
    simp [hc]
  · rw [mockSortByName, mergeSort_pair]
    have hc : decide (localeCompare wMockB.name wMockA.name ≤ 0) = false := by
      decide
    simp [hc]

/-- Helper: the mock filter predicate is pointwise the specified
three-predicate conjunction. -/
theorem mock_matches_spec (q : String) (types tags : List String) (doc : MockDoc) :
    (matchesSearch q doc && matchesType types doc && matchesTags tags doc)
      = decide (specMatches q types tags doc) := by
  rw [Bool.eq_iff_iff]
  simp only [Bool.and_eq_true, decide_eq_true_iff]
  unfold matchesSearch matchesType matchesTags specMatches
  simp only [Bool.or_eq_true, List.any_eq_true, List.isEmpty_iff, List.contains,
    List.elem_iff]
  tauto

/-- Helper: the tag conjunct of the live filter, characterised by
membership. -/
theorem liveTagMatch_iff (tags : List String) (d : Item) :
    liveTagMatch tags d = true ↔
      ∃ t ∈ tags, jsToLower t ∈ (d.keywords.getD []).map jsToLower := by
  simp [liveTagMatch, List.any_eq_true, List.contains, List.elem_iff]

/-- Claim C1 (amended): in the mock variants the displayed list is
exactly the results satisfying the conjunction of the three stated
predicates; in the live variant only the tag predicate is applied on the
client (an item is displayed exactly when it belongs to the current
result set and, when the tag set is nonempty, shares a selected tag
case-insensitively) — the text query is handled by the backend and the
type filter branch is a no-op. -/
theorem filter_semantics_amended :
    (∀ (docs : List MockDoc) (q : String) (types tags : List String),
       filteredMock docs q types tags = specFilteredView q types tags docs) ∧
    (∀ (items : List Item) (types tags : List String) (sb : String) (d : Item),
       d ∈ filteredLive items types tags sb ↔
         d ∈ items ∧ (tags = [] ∨
           ∃ t ∈ tags, jsToLower t ∈ (d.keywords.getD []).map jsToLower)) := by
  constructor
  · intro docs q types tags
    unfold filteredMock specFilteredView
    exact List.filter_congr (fun doc _ => mock_matches_spec q types tags doc)
  · intro items types tags sb d
    have hfilt : items.filter (fun _ => true) = items :=
      List.filter_eq_self.mpr (fun a _ => rfl)
    by_cases hg : tags.isEmpty
    · have hg' : tags = [] := List.isEmpty_iff.mp hg
      subst hg'
      by_cases ht : types.isEmpty <;> by_cases hs : sb = "name" <;>
        simp [filteredLive, ht, hs, hfilt, sortByName]
    · have hg' : ¬ tags = [] := fun he => hg (by simp [he])
      by_cases ht : types.isEmpty <;> by_cases hs : sb = "name" <;>
        simp [filteredLive, ht, hg, hs, hfilt, sortByName, List.mem_filter,
          liveTagMatch_iff, hg']

/-- End-to-end check of the tag-filter scenario: a backend result tagged
`animal` stays displayed under the tag filter `animal` and is hidden
under the tag filter `urban`. -/
theorem tag_filter_scenario :
    filteredLive [wItem] [] ["animal"] "date" = [wItem] ∧
    filteredLive [wItem] [] ["urban"] "date" = [] := by
  decide
